import Mathlib

/-!
# URL shortener: shortcode registry

A shallow embedding of `server/src/index.js` and `server/src/models/Url.js`:
the `Url` collection, the three route handlers (`POST /api/shorten`,
`GET /api/admin/urls`, `GET /:shortcode`) and the helper `isValidUrl`.

* The collection is a list of documents in insertion (natural) order.
  `Url.findOne` returns the first match, `Url.create` appends.
* `clicks` is a `Number` in the source: a stored counter is a natural number,
  and `doc.clicks += 1` is the addition of doubles (`numberAdd`), which rounds
  to the nearest representable value from `2 ^ 53` on.  A `save()` of a
  document whose `clicks` did not change sends nothing.
* `res.redirect(url)` writes `encodeUrl(url)` to `Location`; the encoder is a
  parameter (`Env.encodeUrl`), and `encodeurl` below is the algorithm of
  version 2 of the `encodeurl` package (version 1 also encodes `\`, `^`, `|`).
* The request body field `longUrl` is an optional string.
* `nanoid(7)` is an input of the handler: `gen i` is the value returned by the
  `i`-th call made while serving one request.
* `new URL(str)` is the platform URL parser run without a base URL.  Its state
  machine is embedded below; the host parser (IDNA, IPv4, IPv6) is a parameter.
-/

namespace UrlShortener

/-! ## models/Url.js -/

/-- One document of the `Url` collection (`urlSchema` with `timestamps: true`). -/
structure UrlDoc where
  _id : Nat
  shortcode : String
  originalUrl : String
  clicks : Nat
  createdAt : Nat
  updatedAt : Nat
deriving DecidableEq

/-- The `Url` collection, in natural order. -/
abbrev Collection := List UrlDoc

/-- Errors thrown by the model layer. -/
inductive StorageError where
  | validation
  | duplicateKey
  | documentNotFound
deriving DecidableEq

/-- The query `Url.findOne({ originalUrl })`. -/
def findOneByOriginalUrl (db : Collection) (originalUrl : String) : Option UrlDoc :=
  db.find? (fun d => d.originalUrl == originalUrl)

/-- The query `Url.findOne({ shortcode })`. -/
def findOneByShortcode (db : Collection) (shortcode : String) : Option UrlDoc :=
  db.find? (fun d => d.shortcode == shortcode)

/-- A fresh `_id` for a new document. -/
def freshId (db : Collection) : Nat :=
  (db.map (fun d => d._id)).foldr max 0 + 1

/-- The call `Url.create({ shortcode, originalUrl })`: both paths are `required` (a
required string must be non-empty), `shortcode` has a unique index,
`clicks` defaults to `0` and both timestamps are set to the current time. -/
def create (db : Collection) (now : Nat) (shortcode originalUrl : String) :
    Except StorageError (UrlDoc × Collection) :=
  if shortcode = "" ∨ originalUrl = "" then .error .validation
  else if (findOneByShortcode db shortcode).isSome then .error .duplicateKey
  else
    let doc : UrlDoc :=
      { _id := freshId db, shortcode := shortcode, originalUrl := originalUrl,
        clicks := 0, createdAt := now, updatedAt := now }
    .ok (doc, db ++ [doc])

/-- The update sent by `doc.save()` after `doc.clicks` was modified: the stored
document with the same `_id` gets the new `clicks` and a new `updatedAt`. -/
def applySave (now : Nat) (doc : UrlDoc) (d : UrlDoc) : UrlDoc :=
  if d._id = doc._id then { d with clicks := doc.clicks, updatedAt := now } else d

/-- The call `doc.save()` for a document that was loaded from the collection
as `loaded` and is now `doc`: when `clicks` was set to the value it already
had, no path is modified, nothing is sent and `updatedAt` stays; otherwise the
update is sent, and it fails when no stored document has the `_id`. -/
def save (db : Collection) (now : Nat) (loaded doc : UrlDoc) :
    Except StorageError Collection :=
  if doc.clicks = loaded.clicks then .ok db
  else if db.any (fun d => d._id == doc._id) then .ok (db.map (applySave now doc))
  else .error .documentNotFound

/-! ## `Number` arithmetic -/

/-- The binary exponent of the spacing of doubles around `n`: the least `e`
with `n / 2 ^ e < 2 ^ 53`, found in at most `fuel` halvings. -/
def numberExponent : Nat → Nat → Nat
  | 0, _ => 0
  | fuel + 1, n => if n < 2 ^ 53 then 0 else numberExponent fuel (n / 2) + 1

/-- Rounding of a natural number (below `2 ^ 1024`) to the nearest double,
ties to the even significand: the identity up to `2 ^ 53`; `2 ^ 53 + 1` gives
`2 ^ 53` and `2 ^ 53 + 3` gives `2 ^ 53 + 4`. -/
def toNumber (n : Nat) : Nat :=
  let e := numberExponent n n
  let q := n / 2 ^ e
  let r := n % 2 ^ e
  if 2 * r < 2 ^ e then q * 2 ^ e
  else if 2 ^ e < 2 * r then (q + 1) * 2 ^ e
  else if q % 2 = 0 then q * 2 ^ e
  else (q + 1) * 2 ^ e

/-- The `+` of two `Number`s holding natural numbers: the exact sum, rounded. -/
def numberAdd (a b : Nat) : Nat := toNumber (a + b)

/-! ## The `encodeurl` package (version 2) -/

def isHexDigit (c : Char) : Bool :=
  c.isDigit || ('A' ≤ c ∧ c ≤ 'F') || ('a' ≤ c ∧ c ≤ 'f')

/-- The code points `ENCODE_CHARS_REGEXP` leaves alone:
`[\x21\x23-\x3B\x3D\x3F-\x5F\x61-\x7A\x7C\x7E]`. -/
def isEncodeUrlSafe (c : Char) : Bool :=
  let n := c.toNat
  n = 0x21 || (0x23 ≤ n && n ≤ 0x3B) || n = 0x3D || (0x3F ≤ n && n ≤ 0x5F) ||
    (0x61 ≤ n && n ≤ 0x7A) || n = 0x7C || n = 0x7E

/-- The code points `encodeURI` leaves alone: letters, digits, the marks
`- _ . ! ~ * ' ( )`, the reserved `; / ? : @ & = + $ ,` and `#`. -/
def isEncodeURIUnescaped (c : Char) : Bool :=
  c.isAlphanum || "-_.!~*'();/?:@&=+$,#".toList.contains c

def hexDigitUpper (n : Nat) : Char :=
  "0123456789ABCDEF".toList.getD n '0'

/-- The UTF-8 bytes of a code point. -/
def utf8Bytes (c : Char) : List Nat :=
  let n := c.toNat
  if n < 0x80 then [n]
  else if n < 0x800 then [0xC0 + n / 64, 0x80 + n % 64]
  else if n < 0x10000 then [0xE0 + n / 4096, 0x80 + n / 64 % 64, 0x80 + n % 64]
  else [0xF0 + n / 262144, 0x80 + n / 4096 % 64, 0x80 + n / 64 % 64, 0x80 + n % 64]

/-- What `encodeURI` makes of one code point. -/
def encodeURIChar (c : Char) : List Char :=
  if isEncodeURIUnescaped c then [c]
  else (utf8Bytes c).flatMap (fun b => ['%', hexDigitUpper (b / 16), hexDigitUpper (b % 16)])

/-- At a `%`: the number of following code points the match takes with it
when the `%` does not start an escape (followed by a non-hex code point, by
one hex digit and a non-hex code point, or by the end of the string). -/
def badEscapeLength (cs : List Char) : Option Nat :=
  match cs with
  | [] => some 0
  | h :: t =>
    if !isHexDigit h then some 1
    else
      match t with
      | [] => none
      | g :: _ => if !isHexDigit g then some 2 else none

/-- The replacement of every match of `ENCODE_CHARS_REGEXP` by its `encodeURI`:
a match is made of code points outside the safe set and of `%`s that do not
start an escape; `taken` counts the code points a `%` took with it. -/
def encodeChars : Nat → List Char → List Char
  | _, [] => []
  | taken + 1, c :: cs => encodeURIChar c ++ encodeChars taken cs
  | 0, c :: cs =>
    if c = '%' then
      match badEscapeLength cs with
      | none => c :: encodeChars 0 cs
      | some taken => encodeURIChar c ++ encodeChars taken cs
    else if isEncodeUrlSafe c then c :: encodeChars 0 cs
    else encodeURIChar c ++ encodeChars 0 cs

/-- The function `encodeUrl` of the `encodeurl` package. -/
def encodeurl (url : String) : String :=
  String.mk (encodeChars 0 url.toList)

/-! ## `new URL(str)` -/

/-- The URL record built by the parser: the components the validity check
depends on.  User info, path, query and fragment are produced by states that
only percent-encode and cannot fail; `rest` is the input those states consume. -/
structure URLRecord where
  scheme : String
  host : Option String
  port : Option Nat
  rest : List Char
deriving DecidableEq

/-- The platform host parser: input and the `isOpaque` flag. -/
abbrev HostParser := List Char → Bool → Option String

def isC0ControlOrSpace (c : Char) : Bool := c.toNat ≤ 0x20

def isAsciiTabOrNewline (c : Char) : Bool := c = '\t' ∨ c = '\n' ∨ c = '\r'

def isSpecialScheme (scheme : String) : Bool :=
  scheme = "ftp" ∨ scheme = "file" ∨ scheme = "http" ∨ scheme = "https" ∨
    scheme = "ws" ∨ scheme = "wss"

def defaultPort (scheme : String) : Option Nat :=
  if scheme = "ftp" then some 21
  else if scheme = "http" then some 80
  else if scheme = "https" then some 443
  else if scheme = "ws" then some 80
  else if scheme = "wss" then some 443
  else none

/-- The code points that end the authority: `/`, `?`, `#`, and `\` for a
special URL (the end of input is the `[]` case of each state). -/
def isAuthorityEnd (special : Bool) (c : Char) : Bool :=
  c = '/' ∨ c = '?' ∨ c = '#' ∨ (special ∧ c = '\\')

def isWindowsDriveLetter (buffer : List Char) : Bool :=
  match buffer with
  | [a, b] => a.isAlpha && (b = ':' ∨ b = '|')
  | _ => false

def digitsToNat (buffer : List Char) : Nat :=
  buffer.foldl (fun n c => 10 * n + (c.toNat - '0'.toNat)) 0

/-- Path start state and the states after it: no failure is possible. -/
def pathStartState (url : URLRecord) (input : List Char) : Option URLRecord :=
  some { url with rest := input }

/-- End of the port state: the buffer is converted and range-checked. -/
def finishPort (url : URLRecord) (buffer input : List Char) : Option URLRecord :=
  if buffer.isEmpty then pathStartState url input
  else
    let port := digitsToNat buffer
    if port > 65535 then none
    else
      pathStartState
        { url with port := if defaultPort url.scheme = some port then none else some port }
        input

/-- Port state. -/
def portState (url : URLRecord) : List Char → List Char → Option URLRecord
  | [], buffer => finishPort url buffer []
  | c :: cs, buffer =>
    if c.isDigit then portState url cs (buffer ++ [c])
    else if isAuthorityEnd (isSpecialScheme url.scheme) c then finishPort url buffer (c :: cs)
    else none

/-- Host state. -/
def hostState (hostParser : HostParser) (url : URLRecord) :
    List Char → List Char → Bool → Option URLRecord
  | [], buffer, _ =>
    if isSpecialScheme url.scheme ∧ buffer.isEmpty then none
    else
      match hostParser buffer (!isSpecialScheme url.scheme) with
      | none => none
      | some host => pathStartState { url with host := some host } []
  | c :: cs, buffer, insideBrackets =>
    if c = ':' ∧ insideBrackets = false then
      if buffer.isEmpty then none
      else
        match hostParser buffer (!isSpecialScheme url.scheme) with
        | none => none
        | some host => portState { url with host := some host } cs []
    else if isAuthorityEnd (isSpecialScheme url.scheme) c then
      if isSpecialScheme url.scheme ∧ buffer.isEmpty then none
      else
        match hostParser buffer (!isSpecialScheme url.scheme) with
        | none => none
        | some host => pathStartState { url with host := some host } (c :: cs)
    else
      hostState hostParser url cs (buffer ++ [c])
        (if c = '[' then true else if c = ']' then false else insideBrackets)

/-- Authority state.  At the end of the authority the pointer goes back to the
start of the buffer (the text after the last `@`) and the host state runs. -/
def authorityState (hostParser : HostParser) (url : URLRecord) :
    List Char → List Char → Bool → Option URLRecord
  | [], buffer, atSignSeen =>
    if atSignSeen ∧ buffer.isEmpty then none
    else hostState hostParser url buffer [] false
  | c :: cs, buffer, atSignSeen =>
    if c = '@' then authorityState hostParser url cs [] true
    else if isAuthorityEnd (isSpecialScheme url.scheme) c then
      if atSignSeen ∧ buffer.isEmpty then none
      else hostState hostParser url (buffer ++ c :: cs) [] false
    else authorityState hostParser url cs (buffer ++ [c]) atSignSeen

/-- Special authority ignore slashes state. -/
def specialAuthorityIgnoreSlashesState (hostParser : HostParser) (url : URLRecord) :
    List Char → Option URLRecord
  | [] => authorityState hostParser url [] [] false
  | c :: cs =>
    if c = '/' ∨ c = '\\' then specialAuthorityIgnoreSlashesState hostParser url cs
    else authorityState hostParser url (c :: cs) [] false

/-- Special authority slashes state. -/
def specialAuthoritySlashesState (hostParser : HostParser) (url : URLRecord)
    (input : List Char) : Option URLRecord :=
  match input with
  | '/' :: '/' :: cs => specialAuthorityIgnoreSlashesState hostParser url cs
  | _ => specialAuthorityIgnoreSlashesState hostParser url input

/-- Path or authority state (entered after the first `/` of a non-special URL). -/
def pathOrAuthorityState (hostParser : HostParser) (url : URLRecord)
    (input : List Char) : Option URLRecord :=
  match input with
  | '/' :: cs => authorityState hostParser url cs [] false
  | _ => pathStartState url ('/' :: input)

/-- File host state. -/
def fileHostState (hostParser : HostParser) (url : URLRecord) :
    List Char → List Char → Option URLRecord
  | [], buffer =>
    if isWindowsDriveLetter buffer then pathStartState url buffer
    else if buffer.isEmpty then pathStartState { url with host := some "" } []
    else
      match hostParser buffer false with
      | none => none
      | some host =>
        pathStartState { url with host := some (if host = "localhost" then "" else host) } []
  | c :: cs, buffer =>
    if c = '/' ∨ c = '\\' ∨ c = '?' ∨ c = '#' then
      if isWindowsDriveLetter buffer then pathStartState url (buffer ++ c :: cs)
      else if buffer.isEmpty then pathStartState { url with host := some "" } (c :: cs)
      else
        match hostParser buffer false with
        | none => none
        | some host =>
          pathStartState { url with host := some (if host = "localhost" then "" else host) }
            (c :: cs)
    else fileHostState hostParser url cs (buffer ++ [c])

/-- File state followed by file slash state, without a base URL. -/
def fileState (hostParser : HostParser) (url : URLRecord) (input : List Char) :
    Option URLRecord :=
  let url := { url with scheme := "file", host := some "" }
  match input with
  | c :: cs =>
    if c = '/' ∨ c = '\\' then
      match cs with
      | c2 :: cs2 =>
        if c2 = '/' ∨ c2 = '\\' then fileHostState hostParser url cs2 []
        else pathStartState url cs
      | [] => pathStartState url cs
    else pathStartState url input
  | [] => pathStartState url input

/-- Scheme state.  Without a base URL the no scheme state is a failure. -/
def schemeState (hostParser : HostParser) : List Char → List Char → Option URLRecord
  | [], _ => none
  | c :: cs, buffer =>
    if c.isAlphanum ∨ c = '+' ∨ c = '-' ∨ c = '.' then
      schemeState hostParser cs (buffer ++ [c.toLower])
    else if c = ':' then
      let url : URLRecord := { scheme := String.mk buffer, host := none, port := none, rest := [] }
      if url.scheme = "file" then fileState hostParser url cs
      else if isSpecialScheme url.scheme then specialAuthoritySlashesState hostParser url cs
      else
        match cs with
        | '/' :: cs2 => pathOrAuthorityState hostParser url cs2
        | _ => some { url with rest := cs }
    else none

/-- Scheme start state. -/
def schemeStartState (hostParser : HostParser) : List Char → Option URLRecord
  | [] => none
  | c :: cs => if c.isAlpha then schemeState hostParser cs [c.toLower] else none

/-- The basic URL parser on an input string, without base URL or state
override: leading and trailing C0 controls and spaces are removed, then all
ASCII tabs and newlines, then the state machine runs from the scheme start
state. -/
def basicURLParser (hostParser : HostParser) (input : List Char) : Option URLRecord :=
  let trimmed := ((input.dropWhile isC0ControlOrSpace).reverse.dropWhile
    isC0ControlOrSpace).reverse
  schemeStartState hostParser (trimmed.filter (fun c => !isAsciiTabOrNewline c))

/-! ## index.js -/

/-- Helper to validate URL: `new URL(str)` does not throw. -/
def isValidUrl (hostParser : HostParser) (str : String) : Bool :=
  (basicURLParser hostParser str.toList).isSome

/-- Process configuration read at start-up (`BASE_URL`), the platform's host
parser, and the encoding `res.redirect` applies to the URL it is given. -/
structure Env where
  BASE_URL : String
  hostParser : HostParser
  encodeUrl : String → String

/-- Body of a successful `POST /api/shorten` response. -/
structure ShortenBody where
  shortcode : String
  shortUrl : String
  originalUrl : String
  clicks : Nat
deriving DecidableEq

/-- One element of the admin listing. -/
structure AdminItem where
  id : Nat
  shortcode : String
  originalUrl : String
  shortUrl : String
  clicks : Nat
  createdAt : Nat
deriving DecidableEq

/-- What a handler sends. -/
inductive Response where
  | json (status : Nat) (body : ShortenBody)
  | jsonError (status : Nat) (error : String)
  | jsonList (status : Nat) (data : List AdminItem)
  | send (status : Nat) (text : String)
  | redirect (status : Nat) (location : String)
deriving DecidableEq

/-- The response, the collection after the request and the number of calls
to `nanoid` made while serving it. -/
structure Outcome where
  res : Response
  db : Collection
  generated : Nat
deriving DecidableEq

/-- The generation loop `for (let i = 0; i < 5; i++)`, started at `i` with
`n` iterations left: the value of `shortcode` after the loop, and the number
of candidates drawn. -/
def generateLoop (gen : Nat → String) (db : Collection) : Nat → Nat → Option String × Nat
  | 0, _ => (none, 0)
  | n + 1, i =>
    let code := gen i
    let taken := findOneByShortcode db code
    if taken.isNone then (some code, 1)
    else
      let r := generateLoop gen db n (i + 1)
      (r.1, r.2 + 1)

/-- The shape of the `shorten` response body for a document. -/
def shortenBody (env : Env) (doc : UrlDoc) : ShortenBody :=
  { shortcode := doc.shortcode,
    shortUrl := env.BASE_URL ++ "/" ++ doc.shortcode,
    originalUrl := doc.originalUrl,
    clicks := doc.clicks }

/-- Handler of `POST /api/shorten`. -/
def postShorten (env : Env) (gen : Nat → String) (now : Nat) (longUrl : Option String)
    (db : Collection) : Outcome :=
  match longUrl with
  | none => ⟨.jsonError 400 "Invalid or missing longUrl", db, 0⟩
  | some longUrl =>
    if longUrl = "" ∨ isValidUrl env.hostParser longUrl = false then
      ⟨.jsonError 400 "Invalid or missing longUrl", db, 0⟩
    else
      match findOneByOriginalUrl db longUrl with
      | some existing => ⟨.json 200 (shortenBody env existing), db, 0⟩
      | none =>
        let r := generateLoop gen db 5 0
        match r.1 with
        | none => ⟨.jsonError 500 "Failed to generate shortcode", db, r.2⟩
        | some shortcode =>
          if shortcode = "" then ⟨.jsonError 500 "Failed to generate shortcode", db, r.2⟩
          else
            match create db now shortcode longUrl with
            | .error _ => ⟨.jsonError 500 "Server error", db, r.2⟩
            | .ok (doc, db') => ⟨.json 201 (shortenBody env doc), db', r.2⟩

/-- The query `Url.find({}).sort({ createdAt: -1 })`. -/
def findAllSorted (db : Collection) : List UrlDoc :=
  db.insertionSort (fun a b => a.createdAt ≥ b.createdAt)

/-- The projection applied to each document of the listing. -/
def adminItem (env : Env) (i : UrlDoc) : AdminItem :=
  { id := i._id,
    shortcode := i.shortcode,
    originalUrl := i.originalUrl,
    shortUrl := env.BASE_URL ++ "/" ++ i.shortcode,
    clicks := i.clicks,
    createdAt := i.createdAt }

/-- Handler of `GET /api/admin/urls`. -/
def getAdminUrls (env : Env) (db : Collection) : Outcome :=
  ⟨.jsonList 200 ((findAllSorted db).map (adminItem env)), db, 0⟩

/-- Handler of `GET /:shortcode`. -/
def getShortcode (env : Env) (now : Nat) (shortcode : String) (db : Collection) : Outcome :=
  match findOneByShortcode db shortcode with
  | none => ⟨.send 404 "Short URL not found", db, 0⟩
  | some loaded =>
    let doc := { loaded with clicks := numberAdd loaded.clicks 1 }
    match save db now loaded doc with
    | .error _ => ⟨.send 500 "Server error", db, 0⟩
    | .ok db' => ⟨.redirect 302 (env.encodeUrl doc.originalUrl), db', 0⟩

/-- One request to the registry. -/
inductive Op where
  | shorten (gen : Nat → String) (now : Nat) (longUrl : Option String)
  | resolve (now : Nat) (shortcode : String)
  | listAll

/-- The outcome of serving one request. -/
def serve (env : Env) (db : Collection) : Op → Outcome
  | .shorten gen now longUrl => postShorten env gen now longUrl db
  | .resolve now shortcode => getShortcode env now shortcode db
  | .listAll => getAdminUrls env db

/-- The collection after serving a sequence of requests one after another. -/
def serveAll (env : Env) (db : Collection) (ops : List Op) : Collection :=
  ops.foldl (fun db op => (serve env db op).db) db

/-- No two documents share a shortcode (the unique index on `shortcode`). -/
def UniqueShortcodes (db : Collection) : Prop :=
  (db.map (fun d => d.shortcode)).Nodup

/-- No two documents share an `_id`. -/
def UniqueIds (db : Collection) : Prop :=
  (db.map (fun d => d._id)).Nodup

/-! ## Requests in flight

A handler runs until its next `await`; the storage operations of requests in
flight are applied one at a time, in any order that keeps each request's own
order.  `GET /:shortcode` has two storage operations: the `findOne` and the
update sent by `save`. -/

/-- A `GET /:shortcode` request in flight: before its `findOne`, between the
`findOne` and the `save` (holding the loaded document), or answered. -/
inductive Resolve where
  | start (shortcode : String)
  | loaded (doc : UrlDoc)
  | done (res : Response)
deriving DecidableEq

def Resolve.isDone : Resolve → Bool
  | .done _ => true
  | _ => false

/-- The next storage operation of one `GET /:shortcode` request. -/
def stepResolve (env : Env) (now : Nat) (db : Collection) :
    Resolve → Collection × Resolve
  | .start shortcode =>
    match findOneByShortcode db shortcode with
    | none => (db, .done (.send 404 "Short URL not found"))
    | some doc => (db, .loaded doc)
  | .loaded loaded =>
    let doc := { loaded with clicks := numberAdd loaded.clicks 1 }
    match save db now loaded doc with
    | .error _ => (db, .done (.send 500 "Server error"))
    | .ok db' => (db', .done (.redirect 302 (env.encodeUrl doc.originalUrl)))
  | .done res => (db, .done res)

/-- The collection and the requests in flight. -/
structure World where
  db : Collection
  tasks : List Resolve
deriving DecidableEq

/-- Request `i` performs its next storage operation at time `now`. -/
def stepAt (env : Env) (w : World) (i now : Nat) : World :=
  if h : i < w.tasks.length then
    let r := stepResolve env now w.db (w.tasks.get ⟨i, h⟩)
    ⟨r.1, w.tasks.set i r.2⟩
  else w

/-- A schedule is a list of (request index, time) pairs. -/
def runSchedule (env : Env) (w : World) (schedule : List (Nat × Nat)) : World :=
  schedule.foldl (fun w s => stepAt env w s.1 s.2) w

/-- The collection after `n` calls of the redirect handler on the same code, one after another. -/
def resolveTimes (env : Env) (now : Nat) (shortcode : String) :
    Nat → Collection → Collection
  | 0, db => db
  | n + 1, db => resolveTimes env now shortcode n (getShortcode env now shortcode db).db

/-- The stored click count of a code. -/
def clicksOf (db : Collection) (shortcode : String) : Option Nat :=
  (findOneByShortcode db shortcode).map (fun d => d.clicks)

/-- The number of answered requests. -/
def doneCount (w : World) : Nat := w.tasks.countP Resolve.isDone

/-- What holds of the collection and of every request in flight while
requests for the code of `m` are served from the collection `db0`. -/
def FlightInv (db0 : Collection) (m : UrlDoc) (w : World) : Prop :=
  w.db.map (fun d => d._id) = db0.map (fun d => d._id) ∧
  w.db.map (fun d => d.shortcode) = db0.map (fun d => d.shortcode) ∧
  (∃ m' ∈ w.db, m'._id = m._id ∧ m'.shortcode = m.shortcode ∧ m.clicks ≤ m'.clicks ∧
    m'.clicks ≤ m.clicks + doneCount w ∧ (0 < doneCount w → m.clicks + 1 ≤ m'.clicks)) ∧
  ∀ t ∈ w.tasks, t = .start m.shortcode ∨
    (∃ doc, t = .loaded doc ∧ doc._id = m._id ∧ m.clicks ≤ doc.clicks ∧
      doc.clicks ≤ m.clicks + doneCount w) ∨
    ∃ r, t = .done r

/-! ## Lookups -/

theorem findOneByShortcode_isSome_iff (db : Collection) (c : String) :
    (findOneByShortcode db c).isSome ↔ ∃ d ∈ db, d.shortcode = c := by
  simp [findOneByShortcode, List.find?_isSome]

theorem findOneByShortcode_eq_none_iff (db : Collection) (c : String) :
    findOneByShortcode db c = none ↔ ∀ d ∈ db, d.shortcode ≠ c := by
  simp [findOneByShortcode, List.find?_eq_none]

theorem findOneByOriginalUrl_eq_none_iff (db : Collection) (u : String) :
    findOneByOriginalUrl db u = none ↔ ∀ d ∈ db, d.originalUrl ≠ u := by
  simp [findOneByOriginalUrl, List.find?_eq_none]

theorem findOneByOriginalUrl_some (db : Collection) (u : String) (d : UrlDoc)
    (h : findOneByOriginalUrl db u = some d) : d ∈ db ∧ d.originalUrl = u := by
  unfold findOneByOriginalUrl at h
  exact ⟨List.mem_of_find?_eq_some h, by simpa using List.find?_some h⟩

theorem findOneByShortcode_some (db : Collection) (c : String) (d : UrlDoc)
    (h : findOneByShortcode db c = some d) : d ∈ db ∧ d.shortcode = c := by
  unfold findOneByShortcode at h
  exact ⟨List.mem_of_find?_eq_some h, by simpa using List.find?_some h⟩

/-! ## The generation loop -/

theorem generateLoop_all_taken (gen : Nat → String) (db : Collection) :
    ∀ n i, (∀ j, j < n → ∃ d ∈ db, d.shortcode = gen (i + j)) →
      generateLoop gen db n i = (none, n) := by
  intro n
  induction n with
  | zero => intro i _; rfl
  | succ n ih =>
    intro i h
    have h0 : (findOneByShortcode db (gen i)).isSome := by
      rw [findOneByShortcode_isSome_iff]; simpa using h 0 (Nat.succ_pos n)
    have hrec := ih (i + 1) (fun j hj => by
      have := h (j + 1) (Nat.succ_lt_succ hj)
      rwa [show i + (j + 1) = i + 1 + j by omega] at this)
    cases hf : findOneByShortcode db (gen i) with
    | none => rw [hf] at h0; exact absurd h0 (by simp)
    | some d => simp [generateLoop, hf, hrec]

theorem generateLoop_first_free (gen : Nat → String) (db : Collection) :
    ∀ n i k, k < n → (∀ j, j < k → ∃ d ∈ db, d.shortcode = gen (i + j)) →
      (∀ d ∈ db, d.shortcode ≠ gen (i + k)) →
      generateLoop gen db n i = (some (gen (i + k)), k + 1) := by
  intro n
  induction n with
  | zero => intro i k hk; omega
  | succ n ih =>
    intro i k hk htaken hfree
    cases k with
    | zero =>
      have hf : findOneByShortcode db (gen i) = none := by
        rw [findOneByShortcode_eq_none_iff]; simpa using hfree
      simp [generateLoop, hf]
    | succ k =>
      have h0 : (findOneByShortcode db (gen i)).isSome := by
        rw [findOneByShortcode_isSome_iff]; simpa using htaken 0 (Nat.succ_pos k)
      have hrec := ih (i + 1) k (by omega)
        (fun j hj => by
          have := htaken (j + 1) (Nat.succ_lt_succ hj)
          rwa [show i + (j + 1) = i + 1 + j by omega] at this)
        (by rwa [show i + 1 + k = i + (k + 1) by omega])
      cases hf : findOneByShortcode db (gen i) with
      | none => rw [hf] at h0; exact absurd h0 (by simp)
      | some d =>
        simp [generateLoop, hf, hrec]
        congr 1; omega

theorem generateLoop_none (gen : Nat → String) (db : Collection) :
    ∀ n i, (generateLoop gen db n i).1 = none →
      ∀ j, j < n → ∃ d ∈ db, d.shortcode = gen (i + j) := by
  intro n
  induction n with
  | zero => intro i _ j hj; omega
  | succ n ih =>
    intro i h j hj
    cases hf : findOneByShortcode db (gen i) with
    | none => simp [generateLoop, hf] at h
    | some d =>
      simp [generateLoop, hf] at h
      cases j with
      | zero => exact ⟨d, (findOneByShortcode_some db _ d hf).1, by
          simpa using (findOneByShortcode_some db _ d hf).2⟩
      | succ j =>
        have := ih (i + 1) h j (by omega)
        rwa [show i + 1 + j = i + (j + 1) by omega] at this

theorem generateLoop_some_free (gen : Nat → String) (db : Collection) :
    ∀ n i c, (generateLoop gen db n i).1 = some c → findOneByShortcode db c = none := by
  intro n
  induction n with
  | zero => intro i c h; simp [generateLoop] at h
  | succ n ih =>
    intro i c h
    cases hf : findOneByShortcode db (gen i) with
    | none =>
      simp [generateLoop, hf] at h
      rw [← h]; exact hf
    | some d =>
      simp [generateLoop, hf] at h
      exact ih (i + 1) c h

theorem generateLoop_some_index (gen : Nat → String) (db : Collection) :
    ∀ n i c, (generateLoop gen db n i).1 = some c → ∃ k, k < n ∧ c = gen (i + k) := by
  intro n
  induction n with
  | zero => intro i c h; simp [generateLoop] at h
  | succ n ih =>
    intro i c h
    cases hf : findOneByShortcode db (gen i) with
    | none =>
      simp [generateLoop, hf] at h
      exact ⟨0, Nat.succ_pos n, by simpa using h.symm⟩
    | some d =>
      simp [generateLoop, hf] at h
      obtain ⟨k, hk, hck⟩ := ih (i + 1) c h
      exact ⟨k + 1, by omega, by rw [hck]; congr 1; omega⟩

/-! ## The validity check -/

theorem isValidUrl_ne_empty (hp : HostParser) (u : String)
    (h : isValidUrl hp u = true) : u ≠ "" := by
  rintro rfl
  have h0 : isValidUrl hp "" = false := rfl
  rw [h0] at h
  exact Bool.noConfusion h

/-! ## Store invariants -/

theorem map_applySave_shortcode (now : Nat) (doc : UrlDoc) (db : Collection) :
    (db.map (applySave now doc)).map (fun d => d.shortcode) = db.map (fun d => d.shortcode) := by
  rw [List.map_map]
  apply List.map_congr_left
  intro d _
  simp only [Function.comp, applySave]
  split <;> rfl

theorem map_applySave_id (now : Nat) (doc : UrlDoc) (db : Collection) :
    (db.map (applySave now doc)).map (fun d => d._id) = db.map (fun d => d._id) := by
  rw [List.map_map]
  apply List.map_congr_left
  intro d _
  simp only [Function.comp, applySave]
  split <;> rfl

theorem lt_freshId (db : Collection) : ∀ d ∈ db, d._id < freshId db := by
  induction db with
  | nil => intro d hd; cases hd
  | cons a db ih =>
    intro d hd
    simp only [freshId, List.map_cons, List.foldr_cons] at ih ⊢
    rcases List.mem_cons.1 hd with rfl | hd
    · omega
    · have := ih d hd; omega

theorem uniqueIds_eq (db : Collection) (h : UniqueIds db) (d m : UrlDoc)
    (hd : d ∈ db) (hm : m ∈ db) (hid : d._id = m._id) : d = m :=
  List.inj_on_of_nodup_map h hd hm hid

theorem uniqueShortcodes_eq (db : Collection) (h : UniqueShortcodes db) (d m : UrlDoc)
    (hd : d ∈ db) (hm : m ∈ db) (hc : d.shortcode = m.shortcode) : d = m :=
  List.inj_on_of_nodup_map h hd hm hc

theorem findOneByShortcode_of_mem (db : Collection) (h : UniqueShortcodes db) (m : UrlDoc)
    (hm : m ∈ db) : findOneByShortcode db m.shortcode = some m := by
  cases hf : findOneByShortcode db m.shortcode with
  | none => exact absurd rfl ((findOneByShortcode_eq_none_iff db _).1 hf m hm)
  | some d =>
    obtain ⟨hd, hdc⟩ := findOneByShortcode_some db _ d hf
    rw [uniqueShortcodes_eq db h d m hd hm hdc]

theorem uniqueShortcodes_append (db : Collection) (doc : UrlDoc)
    (h : UniqueShortcodes db) (hfree : findOneByShortcode db doc.shortcode = none) :
    UniqueShortcodes (db ++ [doc]) := by
  unfold UniqueShortcodes at h ⊢
  rw [List.map_append, List.nodup_append]
  refine ⟨h, by simp, ?_⟩
  intro a ha hb
  simp only [List.map_cons, List.map_nil, List.mem_singleton] at hb
  obtain ⟨d, hd, hda⟩ := List.mem_map.1 ha
  exact (findOneByShortcode_eq_none_iff db _).1 hfree d hd (hda.trans hb)

theorem uniqueIds_append_fresh (db : Collection) (doc : UrlDoc)
    (h : UniqueIds db) (hid : doc._id = freshId db) : UniqueIds (db ++ [doc]) := by
  unfold UniqueIds at h ⊢
  rw [List.map_append, List.nodup_append]
  refine ⟨h, by simp, ?_⟩
  intro a ha hb
  simp only [List.map_cons, List.map_nil, List.mem_singleton] at hb
  obtain ⟨d, hd, hda⟩ := List.mem_map.1 ha
  have := lt_freshId db d hd
  omega

/-- The collection after `POST /api/shorten` is the collection before it, or
that collection with one document appended whose shortcode was free. -/
theorem postShorten_db (env : Env) (gen : Nat → String) (now : Nat)
    (longUrl : Option String) (db : Collection) :
    (postShorten env gen now longUrl db).db = db ∨
      ∃ doc, findOneByShortcode db doc.shortcode = none ∧ doc._id = freshId db ∧
        (postShorten env gen now longUrl db).db = db ++ [doc] := by
  cases longUrl with
  | none => exact Or.inl rfl
  | some u =>
    by_cases hu : u = ""
    · left; simp [postShorten, hu]
    · cases hv : isValidUrl env.hostParser u with
      | false => left; simp [postShorten, hv]
      | true =>
        cases hex : findOneByOriginalUrl db u with
        | some existing => left; simp [postShorten, hu, hv, hex]
        | none =>
          cases hloop : (generateLoop gen db 5 0).1 with
          | none => left; simp [postShorten, hu, hv, hex, hloop]
          | some c =>
            by_cases hc : c = ""
            · left; simp [postShorten, hu, hv, hex, hloop, hc]
            · have hfree := generateLoop_some_free gen db 5 0 c hloop
              right
              refine ⟨{ _id := freshId db, shortcode := c, originalUrl := u, clicks := 0,
                        createdAt := now, updatedAt := now }, hfree, rfl, ?_⟩
              simp [postShorten, hu, hv, hex, hloop, hc, create, hfree]

theorem getShortcode_db (env : Env) (now : Nat) (c : String) (db : Collection) :
    (getShortcode env now c db).db = db ∨
      ∃ doc, (getShortcode env now c db).db = db.map (applySave now doc) := by
  cases hf : findOneByShortcode db c with
  | none => left; simp [getShortcode, hf]
  | some doc =>
    by_cases hsame : numberAdd doc.clicks 1 = doc.clicks
    · left; simp [getShortcode, hf, save, hsame]
    · by_cases hany : (db.any fun d => d._id == doc._id) = true
      · right
        exact ⟨{ doc with clicks := numberAdd doc.clicks 1 },
          by simp [getShortcode, hf, save, hsame, hany]⟩
      · left; simp [getShortcode, hf, save, hsame, hany]

/-- Below `2 ^ 53` the addition of `1` to a `Number` is exact. -/
theorem numberAdd_one_exact (n : Nat) (h : n < 2 ^ 53) : numberAdd n 1 = n + 1 := by
  unfold numberAdd toNumber
  by_cases hlt : n + 1 < 2 ^ 53
  · have he : numberExponent (n + 1) (n + 1) = 0 := by
      rw [numberExponent, if_pos hlt]
    simp [he, Nat.mod_one]
  · have hn : n + 1 = 2 ^ 53 := by omega
    rw [hn]
    decide

theorem serve_unique (env : Env) (db : Collection) (op : Op)
    (h : UniqueShortcodes db) : UniqueShortcodes (serve env db op).db := by
  cases op with
  | shorten gen now longUrl =>
    rcases postShorten_db env gen now longUrl db with heq | ⟨doc, hfree, _, heq⟩
    · simpa [serve, heq] using h
    · simpa [serve, heq] using uniqueShortcodes_append db doc h hfree
  | resolve now c =>
    rcases getShortcode_db env now c db with heq | ⟨doc, heq⟩
    · simpa [serve, heq] using h
    · simp only [serve, heq, UniqueShortcodes, map_applySave_shortcode]
      exact h
  | listAll => exact h

/-! ## Claims about `POST /api/shorten` -/

/-- C6: a request whose `longUrl` is missing, empty, or a string the URL
parser rejects is answered with 400 and "Invalid or missing longUrl"; the
collection is unchanged and no candidate code is drawn.  The string
"not a url" is such a string. -/
theorem shorten_invalid_rejected (env : Env) (gen : Nat → String) (now : Nat)
    (longUrl : Option String) (db : Collection)
    (h : longUrl = none ∨ longUrl = some "" ∨
      ∃ s, longUrl = some s ∧ isValidUrl env.hostParser s = false) :
    postShorten env gen now longUrl db =
        ⟨.jsonError 400 "Invalid or missing longUrl", db, 0⟩ ∧
      isValidUrl env.hostParser "not a url" = false := by
  refine ⟨?_, rfl⟩
  rcases h with rfl | rfl | ⟨s, rfl, hs⟩
  · rfl
  · simp [postShorten]
  · simp [postShorten, hs]

theorem shorten_invalid_rejected_witness :
    (∃ s, some "not a url" = some s ∧
        isValidUrl (fun _ _ => none) s = false) ∧
      postShorten ⟨"http://localhost:5000", fun _ _ => none, encodeurl⟩ (fun _ => "Ab3kX9z") 7
          (some "not a url")
          [⟨1, "abcdefg", "https://example.com/", 3, 1, 2⟩] =
        ⟨.jsonError 400 "Invalid or missing longUrl",
          [⟨1, "abcdefg", "https://example.com/", 3, 1, 2⟩], 0⟩ :=
  ⟨⟨_, rfl, rfl⟩,
    (shorten_invalid_rejected ⟨"http://localhost:5000", fun _ _ => none, encodeurl⟩ (fun _ => "Ab3kX9z") 7
      (some "not a url") [⟨1, "abcdefg", "https://example.com/", 3, 1, 2⟩]
      (Or.inr (Or.inr ⟨_, rfl, rfl⟩))).1⟩

/-- C5: for a valid URL `u` that no stored document has as `originalUrl`, when
candidate `gen k` (`k < 5`) is free and every earlier candidate is taken, the
handler appends exactly one document with `originalUrl = u`, `clicks = 0` and
`shortcode = gen k`, answers 201 with that document, and keeps every stored
document as it was. -/
theorem shorten_creates (env : Env) (gen : Nat → String) (now : Nat) (u : String)
    (db : Collection) (k : Nat)
    (hvalid : isValidUrl env.hostParser u = true)
    (hnew : ∀ d ∈ db, d.originalUrl ≠ u)
    (hk : k < 5)
    (htaken : ∀ j, j < k → ∃ d ∈ db, d.shortcode = gen j)
    (hfree : ∀ d ∈ db, d.shortcode ≠ gen k)
    (hcode : gen k ≠ "") :
    postShorten env gen now (some u) db =
      ⟨.json 201
          { shortcode := gen k, shortUrl := env.BASE_URL ++ "/" ++ gen k,
            originalUrl := u, clicks := 0 },
        db ++ [{ _id := freshId db, shortcode := gen k, originalUrl := u, clicks := 0,
                 createdAt := now, updatedAt := now }],
        k + 1⟩ := by
  have hu : u ≠ "" := isValidUrl_ne_empty _ _ hvalid
  have hex : findOneByOriginalUrl db u = none :=
    (findOneByOriginalUrl_eq_none_iff db u).2 hnew
  have hloop : generateLoop gen db 5 0 = (some (gen k), k + 1) := by
    have := generateLoop_first_free gen db 5 0 k hk
      (fun j hj => by simpa using htaken j hj) (by simpa using hfree)
    simpa using this
  have hf : findOneByShortcode db (gen k) = none :=
    (findOneByShortcode_eq_none_iff db _).2 hfree
  simp [postShorten, hu, hvalid, hex, hloop, hcode, create, hf, shortenBody]

theorem shorten_creates_witness :
    postShorten ⟨"http://localhost:5000", fun _ _ => some "example.com", encodeurl⟩
        (fun i => if i = 0 then "abcdefg" else "Ab3kX9z") 7 (some "https://example.com/a/b")
        [⟨1, "abcdefg", "https://example.com/", 3, 1, 2⟩] =
      ⟨.json 201 ⟨"Ab3kX9z", "http://localhost:5000/Ab3kX9z", "https://example.com/a/b", 0⟩,
        [⟨1, "abcdefg", "https://example.com/", 3, 1, 2⟩,
         ⟨2, "Ab3kX9z", "https://example.com/a/b", 0, 7, 7⟩], 2⟩ :=
  shorten_creates ⟨"http://localhost:5000", fun _ _ => some "example.com", encodeurl⟩
    (fun i => if i = 0 then "abcdefg" else "Ab3kX9z") 7 "https://example.com/a/b"
    [⟨1, "abcdefg", "https://example.com/", 3, 1, 2⟩] 1
    rfl (by decide) (by decide) (by decide) (by decide) (by decide)

/-- C4: with non-empty candidate codes, for a valid URL that is not yet
registered, when each of the five candidates is taken the handler answers 500
"Failed to generate shortcode" after drawing exactly five candidates and the
collection is unchanged; and whatever the request, that answer is given only
when each of the five candidates is taken. -/
theorem shorten_exhausted_iff (env : Env) (gen : Nat → String) (now : Nat)
    (db : Collection) (hcode : ∀ i, i < 5 → gen i ≠ "") :
    (∀ u, isValidUrl env.hostParser u = true → (∀ d ∈ db, d.originalUrl ≠ u) →
      (∀ i, i < 5 → ∃ d ∈ db, d.shortcode = gen i) →
      postShorten env gen now (some u) db =
        ⟨.jsonError 500 "Failed to generate shortcode", db, 5⟩) ∧
    (∀ longUrl,
      (postShorten env gen now longUrl db).res =
          .jsonError 500 "Failed to generate shortcode" →
        ∀ i, i < 5 → ∃ d ∈ db, d.shortcode = gen i) := by
  constructor
  · intro u hvalid hnew htaken
    have hu : u ≠ "" := isValidUrl_ne_empty _ _ hvalid
    have hex : findOneByOriginalUrl db u = none :=
      (findOneByOriginalUrl_eq_none_iff db u).2 hnew
    have hloop : generateLoop gen db 5 0 = (none, 5) :=
      generateLoop_all_taken gen db 5 0 (fun j hj => by simpa using htaken j hj)
    simp [postShorten, hu, hvalid, hex, hloop]
  · intro longUrl hres
    cases longUrl with
    | none => simp [postShorten] at hres
    | some u =>
      by_cases hinv : u = "" ∨ isValidUrl env.hostParser u = false
      · simp [postShorten, hinv] at hres
      · have hu : u ≠ "" := fun h => hinv (Or.inl h)
        have hv : isValidUrl env.hostParser u = true := by
          cases h : isValidUrl env.hostParser u
          · exact absurd (Or.inr h) hinv
          · rfl
        cases hex : findOneByOriginalUrl db u with
        | some existing => simp [postShorten, hu, hv, hex] at hres
        | none =>
          cases hloop : (generateLoop gen db 5 0).1 with
          | none =>
            intro i hi
            simpa using generateLoop_none gen db 5 0 hloop i hi
          | some c =>
            exfalso
            have hfree := generateLoop_some_free gen db 5 0 c hloop
            obtain ⟨k, hk, hck⟩ := generateLoop_some_index gen db 5 0 c hloop
            have hc : c ≠ "" := by
              rw [hck]; simpa using hcode k hk
            simp [postShorten, hu, hv, hex, hloop, hc, create, hfree] at hres

theorem shorten_exhausted_iff_witness :
    (∀ i, i < 5 → "abcdefg" ≠ "") ∧
      postShorten ⟨"http://localhost:5000", fun _ _ => some "example.com", encodeurl⟩
          (fun _ => "abcdefg") 7 (some "https://example.com/a/b")
          [⟨1, "abcdefg", "https://example.com/", 3, 1, 2⟩] =
        ⟨.jsonError 500 "Failed to generate shortcode",
          [⟨1, "abcdefg", "https://example.com/", 3, 1, 2⟩], 5⟩ :=
  ⟨fun _ _ => by decide,
    (shorten_exhausted_iff ⟨"http://localhost:5000", fun _ _ => some "example.com", encodeurl⟩
      (fun _ => "abcdefg") 7 [⟨1, "abcdefg", "https://example.com/", 3, 1, 2⟩]
      (fun _ _ => show "abcdefg" ≠ "" by decide)).1 "https://example.com/a/b" rfl (by decide) (by decide)⟩

/-- C1: when `POST /api/shorten` with `longUrl = u` succeeds with body `b`
(shortcode `b.shortcode`), a following request with the same `u` on the
resulting collection, whatever its candidate codes and time, answers 200 with
the same body, so the same shortcode; it leaves the collection unchanged and
draws no candidate. -/
theorem shorten_idempotent (env : Env) (gen gen2 : Nat → String) (now now2 : Nat)
    (u : String) (db : Collection) (status : Nat) (b : ShortenBody)
    (hfirst : (postShorten env gen now (some u) db).res = .json status b) :
    postShorten env gen2 now2 (some u) (postShorten env gen now (some u) db).db =
      ⟨.json 200 b, (postShorten env gen now (some u) db).db, 0⟩ := by
  by_cases hinv : u = "" ∨ isValidUrl env.hostParser u = false
  · simp [postShorten, hinv] at hfirst
  · have hu : u ≠ "" := fun h => hinv (Or.inl h)
    have hv : isValidUrl env.hostParser u = true := by
      cases h : isValidUrl env.hostParser u
      · exact absurd (Or.inr h) hinv
      · rfl
    cases hex : findOneByOriginalUrl db u with
    | some existing =>
      simp [postShorten, hu, hv, hex] at hfirst
      simp [postShorten, hu, hv, hex, hfirst.2]
    | none =>
      cases hloop : (generateLoop gen db 5 0).1 with
      | none => simp [postShorten, hu, hv, hex, hloop] at hfirst
      | some c =>
        by_cases hc : c = ""
        · simp [postShorten, hu, hv, hex, hloop, hc] at hfirst
        · have hfree := generateLoop_some_free gen db 5 0 c hloop
          simp [postShorten, hu, hv, hex, hloop, hc, create, hfree] at hfirst
          have hfind : findOneByOriginalUrl
              (db ++ [{ _id := freshId db, shortcode := c, originalUrl := u, clicks := 0,
                        createdAt := now, updatedAt := now }]) u =
              some { _id := freshId db, shortcode := c, originalUrl := u, clicks := 0,
                     createdAt := now, updatedAt := now } := by
            unfold findOneByOriginalUrl at hex ⊢
            rw [List.find?_append, hex]
            simp
          simp [postShorten, hu, hv, hex, hloop, hc, create, hfree, hfind, hfirst.2]

theorem shorten_idempotent_witness :
    (postShorten ⟨"http://localhost:5000", fun _ _ => some "example.com", encodeurl⟩
        (fun _ => "Ab3kX9z") 7 (some "https://example.com/a/b") []).res =
        .json 201 ⟨"Ab3kX9z", "http://localhost:5000/Ab3kX9z", "https://example.com/a/b", 0⟩ ∧
      postShorten ⟨"http://localhost:5000", fun _ _ => some "example.com", encodeurl⟩
          (fun _ => "zzzzzzz") 9 (some "https://example.com/a/b")
          (postShorten ⟨"http://localhost:5000", fun _ _ => some "example.com", encodeurl⟩
            (fun _ => "Ab3kX9z") 7 (some "https://example.com/a/b") []).db =
        ⟨.json 200 ⟨"Ab3kX9z", "http://localhost:5000/Ab3kX9z", "https://example.com/a/b", 0⟩,
          (postShorten ⟨"http://localhost:5000", fun _ _ => some "example.com", encodeurl⟩
            (fun _ => "Ab3kX9z") 7 (some "https://example.com/a/b") []).db, 0⟩ :=
  ⟨rfl,
    shorten_idempotent ⟨"http://localhost:5000", fun _ _ => some "example.com", encodeurl⟩
      (fun _ => "Ab3kX9z") (fun _ => "zzzzzzz") 7 9 "https://example.com/a/b" [] 201
      ⟨"Ab3kX9z", "http://localhost:5000/Ab3kX9z", "https://example.com/a/b", 0⟩ rfl⟩

/-! ## Claims about `GET /:shortcode` -/

/-- C7: for a code that no stored document has as `shortcode`, the redirect
handler answers 404 "Short URL not found" (no redirect) and the collection
after the call is the collection before it. -/
theorem resolve_unknown_not_found (env : Env) (now : Nat) (c : String) (db : Collection)
    (h : ∀ d ∈ db, d.shortcode ≠ c) :
    getShortcode env now c db = ⟨.send 404 "Short URL not found", db, 0⟩ := by
  have hf : findOneByShortcode db c = none := (findOneByShortcode_eq_none_iff db c).2 h
  simp [getShortcode, hf]

theorem resolve_unknown_not_found_witness :
    (∀ d ∈ ([⟨1, "abcdefg", "https://example.com/", 3, 1, 2⟩] : Collection),
        d.shortcode ≠ "Ab3kX9z") ∧
      getShortcode ⟨"http://localhost:5000", fun _ _ => none, encodeurl⟩ 7 "Ab3kX9z"
          [⟨1, "abcdefg", "https://example.com/", 3, 1, 2⟩] =
        ⟨.send 404 "Short URL not found",
          [⟨1, "abcdefg", "https://example.com/", 3, 1, 2⟩], 0⟩ :=
  ⟨by decide,
    resolve_unknown_not_found ⟨"http://localhost:5000", fun _ _ => none, encodeurl⟩ 7 "Ab3kX9z"
      [⟨1, "abcdefg", "https://example.com/", 3, 1, 2⟩] (by decide)⟩

/-- C3: starting from a collection in which no two documents share a
shortcode, after any sequence of shorten, resolve and listAll requests, with
any inputs and any candidate codes, no two documents share a shortcode; the
empty collection is such a start. -/
theorem serveAll_unique_shortcodes (env : Env) (ops : List Op) :
    (∀ db, UniqueShortcodes db → UniqueShortcodes (serveAll env db ops)) ∧
      UniqueShortcodes (serveAll env [] ops) := by
  have hgen : ∀ db, UniqueShortcodes db → UniqueShortcodes (serveAll env db ops) := by
    induction ops with
    | nil => intro db h; exact h
    | cons op ops ih =>
      intro db h
      simp only [serveAll, List.foldl_cons]
      exact ih _ (serve_unique env db op h)
  exact ⟨hgen, hgen [] List.nodup_nil⟩

theorem serveAll_unique_shortcodes_witness :
    UniqueShortcodes [⟨1, "abcdefg", "https://example.com/", 3, 1, 2⟩] ∧
      UniqueShortcodes
        (serveAll ⟨"http://localhost:5000", fun _ _ => some "example.com", encodeurl⟩
          [⟨1, "abcdefg", "https://example.com/", 3, 1, 2⟩]
          [.shorten (fun _ => "abcdefg") 7 (some "https://example.com/a/b"),
           .resolve 8 "abcdefg", .listAll,
           .shorten (fun _ => "Ab3kX9z") 9 (some "https://example.com/a/b")]) :=
  ⟨by simp [UniqueShortcodes],
    (serveAll_unique_shortcodes ⟨"http://localhost:5000", fun _ _ => some "example.com", encodeurl⟩
      [.shorten (fun _ => "abcdefg") 7 (some "https://example.com/a/b"),
       .resolve 8 "abcdefg", .listAll,
       .shorten (fun _ => "Ab3kX9z") 9 (some "https://example.com/a/b")]).1 _
      (by simp [UniqueShortcodes])⟩

theorem getShortcode_found (env : Env) (now : Nat) (db : Collection) (m : UrlDoc)
    (hids : UniqueIds db) (hcodes : UniqueShortcodes db) (hm : m ∈ db)
    (hk : m.clicks < 2 ^ 53) :
    getShortcode env now m.shortcode db =
      ⟨.redirect 302 (env.encodeUrl m.originalUrl),
        db.map (fun d =>
          if d = m then { m with clicks := m.clicks + 1, updatedAt := now } else d), 0⟩ := by
  have hf := findOneByShortcode_of_mem db hcodes m hm
  have hany : (db.any fun d => d._id == m._id) = true := by
    simp only [List.any_eq_true]; exact ⟨m, hm, by simp⟩
  have hmap : db.map (applySave now { m with clicks := m.clicks + 1 }) =
      db.map (fun d =>
        if d = m then { m with clicks := m.clicks + 1, updatedAt := now } else d) := by
    apply List.map_congr_left
    intro d hd
    by_cases hdm : d = m
    · subst hdm; simp [applySave]
    · have : d._id ≠ m._id := fun h => hdm (uniqueIds_eq db hids d m hd hm h)
      simp [applySave, hdm, this]
  have hadd := numberAdd_one_exact m.clicks hk
  simp [getShortcode, hf, save, hadd, hany, hmap]

theorem findOneByShortcode_after_resolve (now : Nat) (db : Collection) (m : UrlDoc)
    (hcodes : UniqueShortcodes db) (hm : m ∈ db) :
    findOneByShortcode
        (db.map (fun d =>
          if d = m then { m with clicks := m.clicks + 1, updatedAt := now } else d))
        m.shortcode =
      some { m with clicks := m.clicks + 1, updatedAt := now } := by
  have hsc : (db.map (fun d =>
      if d = m then { m with clicks := m.clicks + 1, updatedAt := now } else d)).map
        (fun d => d.shortcode) = db.map (fun d => d.shortcode) := by
    rw [List.map_map]
    apply List.map_congr_left
    intro d _
    by_cases hdm : d = m
    · subst hdm; simp
    · simp [hdm]
  have huniq : UniqueShortcodes (db.map (fun d =>
      if d = m then { m with clicks := m.clicks + 1, updatedAt := now } else d)) := by
    unfold UniqueShortcodes; rw [hsc]; exact hcodes
  have hmem : ({ m with clicks := m.clicks + 1, updatedAt := now } : UrlDoc) ∈
      db.map (fun d =>
        if d = m then { m with clicks := m.clicks + 1, updatedAt := now } else d) :=
    List.mem_map.2 ⟨m, hm, by simp⟩
  exact findOneByShortcode_of_mem _ huniq _ hmem

theorem encodeChars_safe (l : List Char)
    (h : ∀ c ∈ l, isEncodeUrlSafe c = true ∧ c ≠ '%') : encodeChars 0 l = l := by
  induction l with
  | nil => rfl
  | cons c cs ih =>
    have hc := h c (List.mem_cons_self c cs)
    have ih' := ih (fun d hd => h d (List.mem_cons_of_mem c hd))
    simp [encodeChars, hc.1, hc.2, ih']

/-- C2 (as amended): in a collection whose documents have distinct `_id`s and
distinct shortcodes, for every stored document `m` with `clicks < 2 ^ 53` the
redirect handler on `m.shortcode` answers 302 with `encodeUrl(m.originalUrl)`
as location, and the resulting collection is the old one with `m` replaced by
`m` with `clicks + 1` (and a new `updatedAt`): shortcode, originalUrl and
every other document are unchanged.  After a shorten that created a document
for `u` (201, clicks 0), resolving its shortcode redirects to `encodeUrl(u)`
and leaves its clicks at 1.  The encoder of the `encodeurl` package leaves a
URL unchanged when all its code points are in the safe set and none is `%`. -/
theorem resolve_postcondition (env : Env) (now : Nat) :
    (∀ (db : Collection) (c : String) (m : UrlDoc), UniqueIds db → UniqueShortcodes db →
      m ∈ db → m.shortcode = c → m.clicks < 2 ^ 53 →
      getShortcode env now c db =
        ⟨.redirect 302 (env.encodeUrl m.originalUrl),
          db.map (fun d =>
            if d = m then { m with clicks := m.clicks + 1, updatedAt := now } else d), 0⟩) ∧
    (∀ (gen : Nat → String) (t : Nat) (u : String) (db : Collection)
        (b : ShortenBody), UniqueIds db → UniqueShortcodes db →
      (postShorten env gen t (some u) db).res = .json 201 b →
      b.originalUrl = u ∧ b.clicks = 0 ∧
        (getShortcode env now b.shortcode (postShorten env gen t (some u) db).db).res =
          .redirect 302 (env.encodeUrl u) ∧
        (findOneByShortcode
            (getShortcode env now b.shortcode (postShorten env gen t (some u) db).db).db
            b.shortcode).map (fun d => d.clicks) = some 1) ∧
    (∀ u : String, (∀ c ∈ u.toList, isEncodeUrlSafe c = true ∧ c ≠ '%') →
      encodeurl u = u) := by
  refine ⟨?_, ?_, ?_⟩
  · intro db c m hids hcodes hm hc hk
    subst hc
    exact getShortcode_found env now db m hids hcodes hm hk
  · intro gen t u db b hids hcodes hres
    by_cases hu : u = ""
    · simp [postShorten, hu] at hres
    · cases hv : isValidUrl env.hostParser u with
      | false => simp [postShorten, hv] at hres
      | true =>
        cases hex : findOneByOriginalUrl db u with
        | some existing => simp [postShorten, hu, hv, hex] at hres
        | none =>
          cases hloop : (generateLoop gen db 5 0).1 with
          | none => simp [postShorten, hu, hv, hex, hloop] at hres
          | some c =>
            by_cases hc : c = ""
            · simp [postShorten, hu, hv, hex, hloop, hc] at hres
            · have hfree := generateLoop_some_free gen db 5 0 c hloop
              have hdb : (postShorten env gen t (some u) db).db =
                  db ++ [{ _id := freshId db, shortcode := c, originalUrl := u, clicks := 0,
                           createdAt := t, updatedAt := t }] := by
                simp [postShorten, hu, hv, hex, hloop, hc, create, hfree]
              simp [postShorten, hu, hv, hex, hloop, hc, create, hfree, shortenBody] at hres
              subst hres
              rw [hdb]
              have hids1 := uniqueIds_append_fresh db
                { _id := freshId db, shortcode := c, originalUrl := u, clicks := 0,
                  createdAt := t, updatedAt := t } hids rfl
              have hcodes1 := uniqueShortcodes_append db
                { _id := freshId db, shortcode := c, originalUrl := u, clicks := 0,
                  createdAt := t, updatedAt := t } hcodes hfree
              have h1 := getShortcode_found env now _ _ hids1 hcodes1
                (List.mem_append_right db (List.mem_singleton_self _)) (by simp)
              have h2 := findOneByShortcode_after_resolve now _ _ hcodes1
                (List.mem_append_right db (List.mem_singleton_self _))
              simp only at h1 h2
              refine ⟨rfl, rfl, ?_, ?_⟩
              · rw [h1]
              · rw [h1]; simp only; rw [h2]; rfl
  · intro u h
    unfold encodeurl
    rw [encodeChars_safe _ h]
    rfl

theorem resolve_postcondition_witness :
    (UniqueIds [⟨1, "abcdefg", "https://example.com/", 3, 1, 2⟩,
        ⟨2, "Ab3kX9z", "https://example.com/a/b", 0, 7, 7⟩] ∧
      UniqueShortcodes [⟨1, "abcdefg", "https://example.com/", 3, 1, 2⟩,
        ⟨2, "Ab3kX9z", "https://example.com/a/b", 0, 7, 7⟩]) ∧
      getShortcode ⟨"http://localhost:5000", fun _ _ => none, encodeurl⟩ 9 "Ab3kX9z"
          [⟨1, "abcdefg", "https://example.com/", 3, 1, 2⟩,
           ⟨2, "Ab3kX9z", "https://example.com/a/b", 0, 7, 7⟩] =
        ⟨.redirect 302 "https://example.com/a/b",
          [⟨1, "abcdefg", "https://example.com/", 3, 1, 2⟩,
           ⟨2, "Ab3kX9z", "https://example.com/a/b", 1, 7, 9⟩], 0⟩ :=
  ⟨⟨by simp [UniqueIds], by simp [UniqueShortcodes]⟩,
    ((resolve_postcondition ⟨"http://localhost:5000", fun _ _ => none, encodeurl⟩ 9).1
        [⟨1, "abcdefg", "https://example.com/", 3, 1, 2⟩,
         ⟨2, "Ab3kX9z", "https://example.com/a/b", 0, 7, 7⟩] "Ab3kX9z"
        ⟨2, "Ab3kX9z", "https://example.com/a/b", 0, 7, 7⟩
        (by simp [UniqueIds]) (by simp [UniqueShortcodes]) (by simp) rfl
        (by decide)).trans (by decide)⟩

/-- C2 (as stated) fails: the URL "https://example.com/a b" passes the
validity check and is stored as given, and resolving its code answers with
the location "https://example.com/a%20b", not the stored string; and for a
document whose `clicks` is `2 ^ 53` the handler redirects and leaves `clicks`
and the whole collection as they were. -/
theorem resolve_not_verbatim :
    isValidUrl (fun _ _ => some "example.com") "https://example.com/a b" = true ∧
      getShortcode ⟨"http://localhost:5000", fun _ _ => some "example.com", encodeurl⟩ 9
          "Ab3kX9z" [⟨1, "Ab3kX9z", "https://example.com/a b", 0, 7, 7⟩] =
        ⟨.redirect 302 "https://example.com/a%20b",
          [⟨1, "Ab3kX9z", "https://example.com/a b", 1, 7, 9⟩], 0⟩ ∧
      getShortcode ⟨"http://localhost:5000", fun _ _ => some "example.com", encodeurl⟩ 9
          "Ab3kX9z" [⟨1, "Ab3kX9z", "https://example.com/a/b", 9007199254740992, 7, 7⟩] =
        ⟨.redirect 302 "https://example.com/a/b",
          [⟨1, "Ab3kX9z", "https://example.com/a/b", 9007199254740992, 7, 7⟩], 0⟩ := by
  decide

/-! ## Claims about `GET /api/admin/urls` -/

theorem findAllSorted_perm (db : Collection) : (findAllSorted db).Perm db :=
  List.perm_insertionSort _ db

theorem findAllSorted_sorted (db : Collection) :
    (findAllSorted db).Sorted (fun a b => a.createdAt ≥ b.createdAt) := by
  haveI : IsTotal UrlDoc (fun a b => a.createdAt ≥ b.createdAt) :=
    ⟨fun a b => Nat.le_total b.createdAt a.createdAt⟩
  haveI : IsTrans UrlDoc (fun a b => a.createdAt ≥ b.createdAt) :=
    ⟨fun a b c hab hbc => Nat.le_trans hbc hab⟩
  exact List.sorted_insertionSort _ db

theorem findAllSorted_three (db : Collection) (d1 d2 d3 : UrlDoc)
    (h12 : d1.createdAt < d2.createdAt) (h23 : d2.createdAt < d3.createdAt)
    (hdb : db.Perm [d1, d2, d3]) : findAllSorted db = [d3, d2, d1] := by
  have hperm : (findAllSorted db).Perm [d1, d2, d3] := (findAllSorted_perm db).trans hdb
  have hsorted := findAllSorted_sorted db
  generalize findAllSorted db = l at hperm hsorted
  have hlen : l.length = 3 := by simpa using hperm.length_eq
  match l, hlen with
  | [a, b, c], _ =>
    have ha : a ∈ [d1, d2, d3] := hperm.subset (by simp)
    have hb : b ∈ [d1, d2, d3] := hperm.subset (by simp)
    have hc : c ∈ [d1, d2, d3] := hperm.subset (by simp)
    have k1 : d1 ∈ [a, b, c] := hperm.symm.subset (by simp)
    have k2 : d2 ∈ [a, b, c] := hperm.symm.subset (by simp)
    have k3 : d3 ∈ [a, b, c] := hperm.symm.subset (by simp)
    simp only [List.mem_cons, List.mem_singleton, List.not_mem_nil, or_false] at ha hb hc k1 k2 k3
    have t1 : d1.createdAt = a.createdAt ∨ d1.createdAt = b.createdAt ∨
        d1.createdAt = c.createdAt := by
      rcases k1 with h | h | h <;> simp [h]
    have t3 : d3.createdAt = a.createdAt ∨ d3.createdAt = b.createdAt ∨
        d3.createdAt = c.createdAt := by
      rcases k3 with h | h | h <;> simp [h]
    simp only [List.sorted_cons, List.mem_cons, List.mem_singleton, forall_eq_or_imp,
      forall_eq, List.not_mem_nil, List.Sorted, List.pairwise_cons] at hsorted
    obtain ⟨⟨hab, hac, _⟩, ⟨hbc, _⟩, _⟩ := hsorted
    have ea : a = d3 := by
      rcases ha with h | h | h
      · have := congrArg UrlDoc.createdAt h; omega
      · have := congrArg UrlDoc.createdAt h; omega
      · exact h
    have ec : c = d1 := by
      rcases hc with h | h | h
      · exact h
      · have := congrArg UrlDoc.createdAt h; omega
      · have := congrArg UrlDoc.createdAt h; omega
    have eb : b = d2 := by
      rcases hb with h | h | h
      · have h1 := congrArg UrlDoc.createdAt h
        have h2 := congrArg UrlDoc.createdAt ea
        have h3 := congrArg UrlDoc.createdAt ec
        rcases k2 with g | g | g <;> have := congrArg UrlDoc.createdAt g <;> omega
      · exact h
      · have h1 := congrArg UrlDoc.createdAt h
        have h2 := congrArg UrlDoc.createdAt ea
        have h3 := congrArg UrlDoc.createdAt ec
        rcases k2 with g | g | g <;> have := congrArg UrlDoc.createdAt g <;> omega
    rw [ea, eb, ec]

/-- C10: the admin listing answers 200 with one entry per stored document
(the entries are a permutation of the projected collection, so none is
missing or duplicated and none is cut off), sorted by `createdAt` descending;
documents created at t1 < t2 < t3 are listed as [t3, t2, t1]; and the
collection is unchanged by the call. -/
theorem listAll_complete_sorted (env : Env) (db : Collection) :
    ∃ data, (getAdminUrls env db).res = .jsonList 200 data ∧
      data.Perm (db.map (adminItem env)) ∧
      data.length = db.length ∧
      data.Sorted (fun a b => a.createdAt ≥ b.createdAt) ∧
      (∀ d1 d2 d3 : UrlDoc, d1.createdAt < d2.createdAt → d2.createdAt < d3.createdAt →
        db.Perm [d1, d2, d3] →
        data = [adminItem env d3, adminItem env d2, adminItem env d1]) ∧
      (getAdminUrls env db).db = db := by
  refine ⟨(findAllSorted db).map (adminItem env), rfl, (findAllSorted_perm db).map _, ?_, ?_,
    ?_, rfl⟩
  · simpa using (findAllSorted_perm db).length_eq
  · have := findAllSorted_sorted db
    unfold List.Sorted at this ⊢
    rw [List.pairwise_map]
    exact this
  · intro d1 d2 d3 h12 h23 hdb
    rw [findAllSorted_three db d1 d2 d3 h12 h23 hdb]
    rfl

theorem listAll_complete_sorted_witness :
    (getAdminUrls ⟨"http://localhost:5000", fun _ _ => none, encodeurl⟩
        [⟨1, "aaaaaaa", "https://example.com/1", 0, 10, 10⟩,
         ⟨2, "bbbbbbb", "https://example.com/2", 4, 20, 25⟩,
         ⟨3, "ccccccc", "https://example.com/3", 1, 30, 31⟩]).res =
      .jsonList 200
        [⟨3, "ccccccc", "https://example.com/3", "http://localhost:5000/ccccccc", 1, 30⟩,
         ⟨2, "bbbbbbb", "https://example.com/2", "http://localhost:5000/bbbbbbb", 4, 20⟩,
         ⟨1, "aaaaaaa", "https://example.com/1", "http://localhost:5000/aaaaaaa", 0, 10⟩] := by
  obtain ⟨data, hres, _, _, _, h3, _⟩ :=
    listAll_complete_sorted ⟨"http://localhost:5000", fun _ _ => none, encodeurl⟩
      [⟨1, "aaaaaaa", "https://example.com/1", 0, 10, 10⟩,
       ⟨2, "bbbbbbb", "https://example.com/2", 4, 20, 25⟩,
       ⟨3, "ccccccc", "https://example.com/3", 1, 30, 31⟩]
  rw [hres, h3 _ _ _ (by decide) (by decide) (List.Perm.refl _)]
  rfl

/-! ## What the URL parser guarantees -/

theorem pathStartState_keeps (url r : URLRecord) (input : List Char)
    (h : pathStartState url input = some r) : r.scheme = url.scheme ∧ r.host = url.host := by
  simp only [pathStartState, Option.some.injEq] at h
  subst h
  exact ⟨rfl, rfl⟩

theorem finishPort_keeps (url r : URLRecord) (buffer input : List Char)
    (h : finishPort url buffer input = some r) : r.scheme = url.scheme ∧ r.host = url.host := by
  unfold finishPort at h
  split at h
  · exact pathStartState_keeps _ _ _ h
  · simp only at h
    split at h
    · cases h
    · exact pathStartState_keeps
        { url with port := if defaultPort url.scheme = some (digitsToNat buffer) then none
                           else some (digitsToNat buffer) } _ _ h

theorem portState_keeps (url r : URLRecord) :
    ∀ (input buffer : List Char), portState url input buffer = some r →
      r.scheme = url.scheme ∧ r.host = url.host := by
  intro input
  induction input with
  | nil => intro buffer h; exact finishPort_keeps _ _ _ _ (by simpa [portState] using h)
  | cons c cs ih =>
    intro buffer h
    simp only [portState] at h
    split at h
    · exact ih _ h
    · split at h
      · exact finishPort_keeps _ _ _ _ h
      · cases h

theorem hostState_sets (hp : HostParser) (url r : URLRecord) :
    ∀ (input buffer : List Char) (inside : Bool),
      hostState hp url input buffer inside = some r →
        r.scheme = url.scheme ∧ r.host.isSome = true := by
  intro input
  induction input with
  | nil =>
    intro buffer inside h
    simp only [hostState] at h
    split at h
    · cases h
    · split at h
      · cases h
      · have := pathStartState_keeps _ _ _ h
        exact ⟨this.1, by rw [this.2]; rfl⟩
  | cons c cs ih =>
    intro buffer inside h
    simp only [hostState] at h
    split at h
    · split at h
      · cases h
      · split at h
        · cases h
        · have := portState_keeps _ _ _ _ h
          exact ⟨this.1, by rw [this.2]; rfl⟩
    · split at h
      · split at h
        · cases h
        · split at h
          · cases h
          · have := pathStartState_keeps _ _ _ h
            exact ⟨this.1, by rw [this.2]; rfl⟩
      · exact ih _ _ h

theorem authorityState_sets (hp : HostParser) (url r : URLRecord) :
    ∀ (input buffer : List Char) (seen : Bool),
      authorityState hp url input buffer seen = some r →
        r.scheme = url.scheme ∧ r.host.isSome = true := by
  intro input
  induction input with
  | nil =>
    intro buffer seen h
    simp only [authorityState] at h
    split at h
    · cases h
    · exact hostState_sets hp url r _ _ _ h
  | cons c cs ih =>
    intro buffer seen h
    simp only [authorityState] at h
    split at h
    · exact ih _ _ h
    · split at h
      · split at h
        · cases h
        · exact hostState_sets hp url r _ _ _ h
      · exact ih _ _ h

theorem specialAuthorityIgnoreSlashesState_sets (hp : HostParser) (url r : URLRecord) :
    ∀ (input : List Char), specialAuthorityIgnoreSlashesState hp url input = some r →
      r.scheme = url.scheme ∧ r.host.isSome = true := by
  intro input
  induction input with
  | nil =>
    intro h
    simp only [specialAuthorityIgnoreSlashesState] at h
    exact authorityState_sets hp url r _ _ _ h
  | cons c cs ih =>
    intro h
    simp only [specialAuthorityIgnoreSlashesState] at h
    split at h
    · exact ih h
    · exact authorityState_sets hp url r _ _ _ h

theorem specialAuthoritySlashesState_sets (hp : HostParser) (url r : URLRecord)
    (input : List Char) (h : specialAuthoritySlashesState hp url input = some r) :
    r.scheme = url.scheme ∧ r.host.isSome = true := by
  unfold specialAuthoritySlashesState at h
  split at h <;> exact specialAuthorityIgnoreSlashesState_sets hp url r _ h

theorem pathOrAuthorityState_keeps (hp : HostParser) (url r : URLRecord)
    (input : List Char) (h : pathOrAuthorityState hp url input = some r) :
    r.scheme = url.scheme := by
  unfold pathOrAuthorityState at h
  split at h
  · exact (authorityState_sets hp url r _ _ _ h).1
  · exact (pathStartState_keeps _ _ _ h).1

theorem fileHostState_keeps (hp : HostParser) (url r : URLRecord)
    (hhost : url.host.isSome = true) :
    ∀ (input buffer : List Char), fileHostState hp url input buffer = some r →
      r.scheme = url.scheme ∧ r.host.isSome = true := by
  intro input
  induction input with
  | nil =>
    intro buffer h
    simp only [fileHostState] at h
    split at h
    · have := pathStartState_keeps _ _ _ h
      exact ⟨this.1, by rw [this.2]; exact hhost⟩
    · split at h
      · have := pathStartState_keeps _ _ _ h
        exact ⟨this.1, by rw [this.2]; rfl⟩
      · split at h
        · cases h
        · have := pathStartState_keeps _ _ _ h
          exact ⟨this.1, by rw [this.2]; rfl⟩
  | cons c cs ih =>
    intro buffer h
    simp only [fileHostState] at h
    split at h
    · split at h
      · have := pathStartState_keeps _ _ _ h
        exact ⟨this.1, by rw [this.2]; exact hhost⟩
      · split at h
        · have := pathStartState_keeps _ _ _ h
          exact ⟨this.1, by rw [this.2]; rfl⟩
        · split at h
          · cases h
          · have := pathStartState_keeps _ _ _ h
            exact ⟨this.1, by rw [this.2]; rfl⟩
    · exact ih _ h

theorem fileState_sets (hp : HostParser) (url r : URLRecord) (input : List Char)
    (h : fileState hp url input = some r) :
    r.scheme = "file" ∧ r.host.isSome = true := by
  unfold fileState at h
  simp only at h
  split at h
  · split at h
    · split at h
      · split at h
        · exact fileHostState_keeps hp { url with scheme := "file", host := some "" } r
            rfl _ _ h
        · have := pathStartState_keeps _ _ _ h
          exact ⟨this.1, by rw [this.2]; rfl⟩
      · have := pathStartState_keeps _ _ _ h
        exact ⟨this.1, by rw [this.2]; rfl⟩
    · have := pathStartState_keeps _ _ _ h
      exact ⟨this.1, by rw [this.2]; rfl⟩
  · have := pathStartState_keeps _ _ _ h
    exact ⟨this.1, by rw [this.2]; rfl⟩

theorem isSpecialScheme_file : isSpecialScheme "file" = true := by decide

theorem schemeState_result (hp : HostParser) (r : URLRecord) :
    ∀ (input buffer : List Char), buffer ≠ [] → schemeState hp input buffer = some r →
      r.scheme ≠ "" ∧ (isSpecialScheme r.scheme = true → r.host.isSome = true) := by
  intro input
  induction input with
  | nil => intro buffer _ h; simp [schemeState] at h
  | cons c cs ih =>
    intro buffer hb h
    simp only [schemeState] at h
    split at h
    · exact ih _ (by simp) h
    · split at h
      · have hne : String.mk buffer ≠ "" := by
          intro he
          exact hb (by simpa using congrArg String.data he)
        split at h
        · have := fileState_sets hp _ r _ h
          exact ⟨by rw [this.1]; decide, fun _ => this.2⟩
        · split at h
          · have := specialAuthoritySlashesState_sets hp _ r _ h
            exact ⟨by rw [this.1]; exact hne, fun _ => this.2⟩
          · rename_i hnf hns
            split at h
            · have := pathOrAuthorityState_keeps hp _ r _ h
              refine ⟨by rw [this]; exact hne, fun hsp => ?_⟩
              rw [this] at hsp
              exact absurd hsp hns
            · simp only [Option.some.injEq] at h
              subst h
              exact ⟨hne, fun hsp => absurd hsp hns⟩
      · cases h

theorem basicURLParser_result (hp : HostParser) (input : List Char) (r : URLRecord)
    (h : basicURLParser hp input = some r) :
    r.scheme ≠ "" ∧ (isSpecialScheme r.scheme = true → r.host.isSome = true) := by
  unfold basicURLParser at h
  simp only at h
  generalize List.filter (fun c => !isAsciiTabOrNewline c) _ = l at h
  cases l with
  | nil => simp [schemeStartState] at h
  | cons c cs =>
    simp only [schemeStartState] at h
    split at h
    · exact schemeState_result hp r _ _ (by simp) h
    · cases h

/-! ## Requests in flight: the click counter -/

theorem flightInv_step (env : Env) (db0 : Collection) (m : UrlDoc)
    (hcodes : UniqueShortcodes db0) (w : World) (i now : Nat)
    (hbound : m.clicks + w.tasks.length ≤ 2 ^ 53) (h : FlightInv db0 m w) :
    FlightInv db0 m (stepAt env w i now) := by
  unfold stepAt
  split
  case isFalse => exact h
  case isTrue hi =>
    obtain ⟨hid, hsc, ⟨m', hm', hm'id, hm'sc, hlo, hhi, hpos⟩, htasks⟩ := h
    have huniq : UniqueShortcodes w.db := by unfold UniqueShortcodes; rw [hsc]; exact hcodes
    have hcount : ∀ t', doneCount ⟨(stepResolve env now w.db (w.tasks.get ⟨i, hi⟩)).1,
        w.tasks.set i t'⟩ = doneCount w -
          (if (w.tasks.get ⟨i, hi⟩).isDone then 1 else 0) + (if t'.isDone then 1 else 0) := by
      intro t'
      simp only [doneCount, List.get_eq_getElem]
      exact List.countP_set _ _ _ _ hi
    have hle : (if (w.tasks.get ⟨i, hi⟩).isDone then 1 else 0) ≤ doneCount w := by
      simp only [doneCount, List.get_eq_getElem]
      exact List.boole_getElem_le_countP _ _ _ hi
    have hmemset : ∀ t t', t ∈ w.tasks.set i t' → t ∈ w.tasks ∨ t = t' :=
      fun t t' ht => List.mem_or_eq_of_mem_set ht
    rcases htasks _ (List.get_mem w.tasks i hi) with ht | ⟨doc, ht, hdid, hdlo, hdhi⟩ | ⟨r, ht⟩
    · -- the request performs its `findOne`
      have hfind : findOneByShortcode w.db m.shortcode = some m' := by
        rw [← hm'sc]; exact findOneByShortcode_of_mem w.db huniq m' hm'
      have hc := hcount (.loaded m')
      rw [ht] at hc
      simp only [ht, stepResolve, hfind] at hc ⊢
      simp only [Resolve.isDone, Bool.false_eq_true, if_false, Nat.sub_zero, Nat.add_zero] at hc
      refine ⟨hid, hsc, ⟨m', hm', hm'id, hm'sc, hlo, by rw [hc]; exact hhi,
        by rw [hc]; exact hpos⟩, ?_⟩
      intro t htm
      rw [hc]
      rcases hmemset _ _ htm with ht' | rfl
      · exact htasks t ht'
      · exact Or.inr (Or.inl ⟨m', rfl, hm'id, hlo, hhi⟩)
    · -- the request performs its `save`
      have hany : (w.db.any fun d => d._id == doc._id) = true := by
        simp only [List.any_eq_true]; exact ⟨m', hm', by simp [hm'id, hdid]⟩
      have hc := hcount (.done (.redirect 302 (env.encodeUrl doc.originalUrl)))
      rw [ht] at hc
      simp only [Resolve.isDone, Bool.false_eq_true, if_false, if_true, Nat.sub_zero] at hc
      have hroom : doneCount w + 1 ≤ w.tasks.length := by
        rw [← hc]
        simp only [doneCount]
        exact (List.countP_le_length _).trans (by simp)
      have hadd : numberAdd doc.clicks 1 = doc.clicks + 1 :=
        numberAdd_one_exact doc.clicks (by omega)
      have hne : doc.clicks + 1 ≠ doc.clicks := by omega
      simp only [ht, stepResolve, save, hadd, hne, hany, if_true, if_false] at hc ⊢
      refine ⟨by rw [map_applySave_id]; exact hid, by rw [map_applySave_shortcode]; exact hsc,
        ⟨applySave now { doc with clicks := doc.clicks + 1 } m', List.mem_map.2 ⟨m', hm', rfl⟩,
          ?_, ?_, ?_, ?_, ?_⟩, ?_⟩
      · simp [applySave, hm'id, hdid]
      · simp [applySave, hm'id, hdid, hm'sc]
      · simp only [applySave, hm'id, hdid, if_true]; omega
      · rw [hc]; simp only [applySave, hm'id, hdid, if_true]; omega
      · intro _; simp only [applySave, hm'id, hdid, if_true]; omega
      · intro t htm
        rw [hc]
        rcases hmemset _ _ htm with ht' | rfl
        · rcases htasks t ht' with h1 | ⟨d, h1, h2, h3, h4⟩ | h1
          · exact Or.inl h1
          · exact Or.inr (Or.inl ⟨d, h1, h2, h3, by omega⟩)
          · exact Or.inr (Or.inr h1)
        · exact Or.inr (Or.inr ⟨_, rfl⟩)
    · -- the request is answered already
      have hc := hcount (.done r)
      rw [ht] at hc hle
      simp only [ht, stepResolve] at hc ⊢
      simp only [Resolve.isDone, if_true] at hc hle
      have hc' : doneCount ⟨w.db, w.tasks.set i (.done r)⟩ = doneCount w := by omega
      refine ⟨hid, hsc, ⟨m', hm', hm'id, hm'sc, hlo, by rw [hc']; exact hhi,
        by rw [hc']; exact hpos⟩, ?_⟩
      intro t htm
      rw [hc']
      rcases hmemset _ _ htm with ht' | rfl
      · exact htasks t ht'
      · exact Or.inr (Or.inr ⟨_, rfl⟩)

theorem stepAt_length (env : Env) (w : World) (i now : Nat) :
    (stepAt env w i now).tasks.length = w.tasks.length := by
  unfold stepAt
  split <;> simp

theorem flightInv_run (env : Env) (db0 : Collection) (m : UrlDoc)
    (hcodes : UniqueShortcodes db0) (schedule : List (Nat × Nat)) :
    ∀ w, m.clicks + w.tasks.length ≤ 2 ^ 53 → FlightInv db0 m w →
      FlightInv db0 m (runSchedule env w schedule) := by
  induction schedule with
  | nil => intro w _ h; exact h
  | cons s rest ih =>
    intro w hbound h
    simp only [runSchedule, List.foldl_cons]
    exact ih _ (by rw [stepAt_length]; exact hbound)
      (flightInv_step env db0 m hcodes w s.1 s.2 hbound h)

theorem runSchedule_length (env : Env) (schedule : List (Nat × Nat)) :
    ∀ w, (runSchedule env w schedule).tasks.length = w.tasks.length := by
  induction schedule with
  | nil => intro w; rfl
  | cons s rest ih =>
    intro w
    simp only [runSchedule, List.foldl_cons]
    exact (ih _).trans (stepAt_length env w s.1 s.2)

/-- Two storage operations of one request in flight, with nothing in between,
are one call of the redirect handler. -/
theorem stepResolve_twice (env : Env) (now : Nat) (c : String) (db : Collection) :
    stepResolve env now (stepResolve env now db (.start c)).1
        (stepResolve env now db (.start c)).2 =
      ((getShortcode env now c db).db, .done (getShortcode env now c db).res) := by
  cases hf : findOneByShortcode db c with
  | none => simp [stepResolve, getShortcode, hf]
  | some doc =>
    by_cases hsame : numberAdd doc.clicks 1 = doc.clicks
    · simp [stepResolve, getShortcode, hf, save, hsame]
    · by_cases hany : (db.any fun d => d._id == doc._id) = true
      · simp [stepResolve, getShortcode, hf, save, hsame, hany]
      · simp [stepResolve, getShortcode, hf, save, hsame, hany]

theorem resolveTimes_clicks (env : Env) (now : Nat) :
    ∀ (n : Nat) (db : Collection) (m : UrlDoc), UniqueIds db → UniqueShortcodes db → m ∈ db →
      m.clicks + n ≤ 2 ^ 53 →
      clicksOf (resolveTimes env now m.shortcode n db) m.shortcode = some (m.clicks + n) := by
  intro n
  induction n with
  | zero =>
    intro db m _ hcodes hm _
    simp [resolveTimes, clicksOf, findOneByShortcode_of_mem db hcodes m hm]
  | succ n ih =>
    intro db m hids hcodes hm hbound
    have hf := findOneByShortcode_of_mem db hcodes m hm
    have hany : (db.any fun d => d._id == m._id) = true := by
      simp only [List.any_eq_true]; exact ⟨m, hm, by simp⟩
    have hadd : numberAdd m.clicks 1 = m.clicks + 1 :=
      numberAdd_one_exact m.clicks (by omega)
    have hdb : (getShortcode env now m.shortcode db).db =
        db.map (applySave now { m with clicks := m.clicks + 1 }) := by
      simp [getShortcode, hf, save, hadd, hany]
    have hmem : applySave now { m with clicks := m.clicks + 1 } m ∈
        db.map (applySave now { m with clicks := m.clicks + 1 }) :=
      List.mem_map.2 ⟨m, hm, rfl⟩
    have hids1 : UniqueIds (db.map (applySave now { m with clicks := m.clicks + 1 })) := by
      unfold UniqueIds; rw [map_applySave_id]; exact hids
    have hcodes1 : UniqueShortcodes
        (db.map (applySave now { m with clicks := m.clicks + 1 })) := by
      unfold UniqueShortcodes; rw [map_applySave_shortcode]; exact hcodes
    have := ih _ _ hids1 hcodes1 hmem (by simp only [applySave, if_true]; omega)
    simp only [applySave, if_true] at this
    simp only [resolveTimes, hdb]
    rw [this]
    congr 1; omega

/-- C8 (as amended): for a stored document with code `c` and `clicks = k`,
with `k + N ≤ 2 ^ 53`, `N` calls of the redirect handler on `c` made one after
another leave `clicks = k + N`; when the `findOne` and `save` operations of
`N ≥ 1` requests on `c` interleave in any order and all requests have been
answered, the stored `clicks` is at least `k + 1` and at most `k + N`. -/
theorem resolve_clicks_interleaved (env : Env) (now : Nat) (db : Collection) (m : UrlDoc)
    (N : Nat) (hids : UniqueIds db) (hcodes : UniqueShortcodes db) (hm : m ∈ db)
    (hbound : m.clicks + N ≤ 2 ^ 53) :
    clicksOf (resolveTimes env now m.shortcode N db) m.shortcode = some (m.clicks + N) ∧
    ∀ schedule : List (Nat × Nat),
      (∀ t ∈ (runSchedule env ⟨db, List.replicate N (.start m.shortcode)⟩ schedule).tasks,
        t.isDone = true) → 0 < N →
      ∃ k, clicksOf (runSchedule env ⟨db, List.replicate N (.start m.shortcode)⟩ schedule).db
          m.shortcode = some k ∧ m.clicks + 1 ≤ k ∧ k ≤ m.clicks + N := by
  refine ⟨resolveTimes_clicks env now N db m hids hcodes hm hbound, ?_⟩
  intro schedule hdone hN
  have h0 : FlightInv db m ⟨db, List.replicate N (.start m.shortcode)⟩ := by
    refine ⟨rfl, rfl, ⟨m, hm, rfl, rfl, le_refl _, Nat.le_add_right _ _, ?_⟩, ?_⟩
    · intro hpos
      exfalso
      have : doneCount ⟨db, List.replicate N (.start m.shortcode)⟩ = 0 := by
        simp only [doneCount, List.countP_eq_zero]
        intro t ht
        rw [List.eq_of_mem_replicate ht]
        simp [Resolve.isDone]
      omega
    · intro t ht
      exact Or.inl (List.eq_of_mem_replicate ht)
  obtain ⟨_, hsc, ⟨m', hm', _, hm'sc, _, hhi, hpos⟩, _⟩ :=
    flightInv_run env db m hcodes schedule _ (by simpa using hbound) h0
  have hlen := runSchedule_length env schedule ⟨db, List.replicate N (.start m.shortcode)⟩
  simp only [List.length_replicate] at hlen
  have hcount : doneCount
      (runSchedule env ⟨db, List.replicate N (.start m.shortcode)⟩ schedule) = N := by
    unfold doneCount
    rw [List.countP_eq_length.2 hdone, hlen]
  rw [hcount] at hhi hpos
  have huniq : UniqueShortcodes
      (runSchedule env ⟨db, List.replicate N (.start m.shortcode)⟩ schedule).db := by
    unfold UniqueShortcodes; rw [hsc]; exact hcodes
  refine ⟨m'.clicks, ?_, hpos hN, hhi⟩
  have := findOneByShortcode_of_mem _ huniq m' hm'
  rw [hm'sc] at this
  simp [clicksOf, this]

theorem resolve_clicks_interleaved_witness :
    (UniqueIds [⟨1, "Ab3kX9z", "https://example.com/a/b", 4, 7, 7⟩] ∧
      UniqueShortcodes [⟨1, "Ab3kX9z", "https://example.com/a/b", 4, 7, 7⟩] ∧
      4 + 3 ≤ 2 ^ 53) ∧
      clicksOf (resolveTimes ⟨"http://localhost:5000", fun _ _ => none, encodeurl⟩ 9
        "Ab3kX9z" 3 [⟨1, "Ab3kX9z", "https://example.com/a/b", 4, 7, 7⟩])
        "Ab3kX9z" = some (4 + 3) ∧
      ∃ k, clicksOf (runSchedule ⟨"http://localhost:5000", fun _ _ => none, encodeurl⟩
          ⟨[⟨1, "Ab3kX9z", "https://example.com/a/b", 4, 7, 7⟩],
            List.replicate 3 (.start "Ab3kX9z")⟩
          [(0, 8), (1, 8), (0, 9), (2, 9), (1, 10), (2, 11)]).db "Ab3kX9z" = some k ∧
        4 + 1 ≤ k ∧ k ≤ 4 + 3 :=
  ⟨⟨by simp [UniqueIds], by simp [UniqueShortcodes], by decide⟩,
    (resolve_clicks_interleaved ⟨"http://localhost:5000", fun _ _ => none, encodeurl⟩ 9
      [⟨1, "Ab3kX9z", "https://example.com/a/b", 4, 7, 7⟩]
      ⟨1, "Ab3kX9z", "https://example.com/a/b", 4, 7, 7⟩ 3
      (by simp [UniqueIds]) (by simp [UniqueShortcodes]) (by simp) (by decide)).1,
    (resolve_clicks_interleaved ⟨"http://localhost:5000", fun _ _ => none, encodeurl⟩ 9
      [⟨1, "Ab3kX9z", "https://example.com/a/b", 4, 7, 7⟩]
      ⟨1, "Ab3kX9z", "https://example.com/a/b", 4, 7, 7⟩ 3
      (by simp [UniqueIds]) (by simp [UniqueShortcodes]) (by simp) (by decide)).2
      [(0, 8), (1, 8), (0, 9), (2, 9), (1, 10), (2, 11)] (by decide) (by decide)⟩

/-- C8 (as stated) fails: two requests on the same code whose `findOne`s both
run before either `save` are both answered with a redirect, and the stored
`clicks` goes from 4 to 5, not to 6. -/
theorem resolve_lost_update :
    runSchedule ⟨"http://localhost:5000", fun _ _ => none, encodeurl⟩
        ⟨[⟨1, "Ab3kX9z", "https://example.com/a/b", 4, 7, 7⟩],
          [.start "Ab3kX9z", .start "Ab3kX9z"]⟩ [(0, 8), (1, 8), (0, 9), (1, 9)] =
      ⟨[⟨1, "Ab3kX9z", "https://example.com/a/b", 5, 7, 9⟩],
        [.done (.redirect 302 "https://example.com/a/b"),
         .done (.redirect 302 "https://example.com/a/b")]⟩ ∧
      clicksOf (runSchedule ⟨"http://localhost:5000", fun _ _ => none, encodeurl⟩
        ⟨[⟨1, "Ab3kX9z", "https://example.com/a/b", 4, 7, 7⟩],
          [.start "Ab3kX9z", .start "Ab3kX9z"]⟩ [(0, 8), (1, 8), (0, 9), (1, 9)]).db
        "Ab3kX9z" ≠ some (4 + 2) := by
  decide

/-! ## The input constraint of shorten -/

/-- C9 (as amended): every request that shorten does not answer with 400 has
a non-empty `longUrl` that parses, without a base URL, as a URL with a
non-empty scheme; the parsed URL has a host when its scheme is special (ftp,
file, http, https, ws, wss), and otherwise a host is not required. -/
theorem shorten_accepted_parses (env : Env) (gen : Nat → String) (now : Nat)
    (longUrl : Option String) (db : Collection)
    (h : (postShorten env gen now longUrl db).res ≠
      .jsonError 400 "Invalid or missing longUrl") :
    ∃ u r, longUrl = some u ∧ u ≠ "" ∧
      basicURLParser env.hostParser u.toList = some r ∧ r.scheme ≠ "" ∧
      (isSpecialScheme r.scheme = true → r.host.isSome = true) := by
  cases longUrl with
  | none => exact absurd rfl h
  | some u =>
    by_cases hu : u = ""
    · exact absurd (by simp [postShorten, hu]) h
    · cases hv : isValidUrl env.hostParser u with
      | false => exact absurd (by simp [postShorten, hv]) h
      | true =>
        unfold isValidUrl at hv
        obtain ⟨r, hr⟩ := Option.isSome_iff_exists.1 hv
        exact ⟨u, r, rfl, hu, hr, basicURLParser_result _ _ _ hr⟩

theorem shorten_accepted_parses_witness :
    (postShorten ⟨"http://localhost:5000", fun _ _ => some "example.com", encodeurl⟩
        (fun _ => "Ab3kX9z") 7 (some "https://example.com/a/b") []).res ≠
        .jsonError 400 "Invalid or missing longUrl" ∧
      ∃ u r, some "https://example.com/a/b" = some u ∧ u ≠ "" ∧
        basicURLParser (fun _ _ => some "example.com") u.toList = some r ∧ r.scheme ≠ "" ∧
        (isSpecialScheme r.scheme = true → r.host.isSome = true) :=
  ⟨by decide,
    shorten_accepted_parses ⟨"http://localhost:5000", fun _ _ => some "example.com", encodeurl⟩
      (fun _ => "Ab3kX9z") 7 (some "https://example.com/a/b") [] (by decide)⟩

/-- C9 (as stated) fails: "mailto:someone" parses with scheme "mailto" and no
host, whatever the host parser, and shorten accepts it and creates a
document for it. -/
theorem shorten_accepts_hostless :
    postShorten ⟨"http://localhost:5000", fun _ _ => none, encodeurl⟩ (fun _ => "Ab3kX9z") 7
        (some "mailto:someone") [] =
      ⟨.json 201 ⟨"Ab3kX9z", "http://localhost:5000/Ab3kX9z", "mailto:someone", 0⟩,
        [⟨1, "Ab3kX9z", "mailto:someone", 0, 7, 7⟩], 1⟩ ∧
      (∀ hp : HostParser, basicURLParser hp "mailto:someone".toList =
        some ⟨"mailto", none, none, "someone".toList⟩) :=
  ⟨by decide, fun _ => rfl⟩

end UrlShortener
